import Mathlib

/-!
Verification development for a seam-carving image resizer (`utils.py`).

The Python code operates on numpy arrays of floats.  We embed it shallowly:

* rectangular numeric grids become functions `ℕ → ℕ → ℚ` together with
  explicit height/width bounds (the float operations the claims mention are
  additions, subtractions, absolute values and comparisons, which we read
  as exact rational arithmetic);
* the mutable carver object (`SeamImage`) becomes an explicit state record
  over `List (List _)` buffers;
* code that can raise (a Python `IndexError` on a bad index) returns
  `Option _`, with `none` marking the raised exception;
* `float("inf")` sentinels in the DP cost matrix become `⊤ : WithTop ℚ`;
* Python indexing `a[i]` with `-n ≤ i < 0` wraps to `a[n + i]`, which
  `pyIdx` reproduces.
-/

namespace SeamCarve

/-- Python index semantics for an axis of length `n`: a nonnegative index is
used as is, a negative index wraps by adding `n`.  (Indices outside
`[-n, n)` raise in Python; the sites that can receive them return
`Option` and check the range first.) -/
def pyIdx (n : ℕ) (i : ℤ) : ℕ :=
  if 0 ≤ i then i.toNat else ((n : ℤ) + i).toNat

/-- First index of the minimum of a list, accumulator form.  `np.argmin`
returns the first position attaining the minimum, which the strict
comparison reproduces. -/
def argminIdxAux : List ℚ → ℕ → ℕ → ℚ → ℕ
  | [], _, bi, _ => bi
  | x :: xs, i, bi, bv =>
      if x < bv then argminIdxAux xs (i + 1) i x
      else argminIdxAux xs (i + 1) bi bv

/-- `np.argmin` on a list of rationals (first minimum; `0` on `[]`). -/
def argminIdx : List ℚ → ℕ
  | [] => 0
  | x :: xs => argminIdxAux xs 1 0 x

/-- One step of `GreedySeamImage.find_minimal_seam` (`utils.py` 299-321):
from current column `c` in row `i`, build the candidate list
(left if `c > 0`, center, right if `c < w - 1`, reading row `i + 1` of the
energy and cost grids) and move by `argmin(candidates) - 1`.  This is the
code verbatim, including the update `min_idx + direction - 1` that is
applied even when the left candidate was not appended. -/
def greedyNext (w : ℕ) (Erow CLrow CVrow CRrow : ℕ → ℚ) (c : ℤ) : ℤ :=
  let cand : List ℚ :=
    (if c > 0 then [Erow (pyIdx w (c - 1)) + CLrow (pyIdx w (c - 1))] else [])
      ++ [Erow (pyIdx w c) + CVrow (pyIdx w c)]
      ++ (if c < (w : ℤ) - 1 then [Erow (pyIdx w (c + 1)) + CRrow (pyIdx w (c + 1))] else [])
  c + (argminIdx cand : ℤ) - 1

/-- The loop `for i in range(h)` of the greedy finder: record the current
column; while a next row exists (`i + 1 < h`) move with `greedyNext`.  The
first numeric argument is the number of rows still to fill. -/
def greedyGo (w : ℕ) (E CL CV CR : ℕ → ℕ → ℚ) : ℕ → ℕ → ℤ → List ℤ
  | 0, _, _ => []
  | n + 1, i, c =>
      c :: (if n = 0 then [] else
        greedyGo w E CL CV CR n (i + 1)
          (greedyNext w (E (i + 1)) (CL (i + 1)) (CV (i + 1)) (CR (i + 1)) c))

/-- `GreedySeamImage.find_minimal_seam` (`utils.py` 287-323): start from
`np.argmin(E[0])` and walk `h` rows. -/
def greedySeam (h w : ℕ) (E CL CV CR : ℕ → ℕ → ℚ) : List ℤ :=
  greedyGo w E CL CV CR h 0
    (argminIdx ((List.range w).map (fun j => E 0 j)))

/-- The all-zero grid.  It is the energy and cost state of a constant
image: a constant grayscale has zero row-rolled differences (`calc_C`) and,
when the constant is `1/2`, zero padded forward differences
(`calc_gradient_magnitude`). -/
def zeroGrid : ℕ → ℕ → ℚ := fun _ _ => 0

/-- Energy grid `[[0, 9, 9], [7, 5, 9]]` exhibiting the greedy mis-step at
column 0: in row 1 the right candidate (column 1, cost 5) beats the center
candidate (column 0, cost 7). -/
def stripeE : ℕ → ℕ → ℚ := fun i j => (([[0, 9, 9], [7, 5, 9]].getD i []).getD j 0 : ℚ)

/-- `np.roll(g, shift=s, axis=0)` on an `h`-row grid: row `i` of the result
is row `(i - s) mod h` of the input. -/
def rollRows (h : ℕ) (s : ℤ) (g : ℕ → ℕ → ℚ) : ℕ → ℕ → ℚ :=
  fun i j => g ((((i : ℤ) - s) % (h : ℤ)).toNat) j

/-- `np.roll(g, shift=s, axis=1)` on a `w`-column grid. -/
def rollCols (w : ℕ) (s : ℤ) (g : ℕ → ℕ → ℚ) : ℕ → ℕ → ℚ :=
  fun i j => g i ((((j : ℤ) - s) % (w : ℤ)).toNat)

/-- `SeamImage.calc_C` (`utils.py` 107-114), vertical grid:
`C_V = |j_plus - j_minus|` with `j_plus = roll(gs, -1, axis=0)` and
`j_minus = roll(gs, 1, axis=0)`. -/
def calcCV (h : ℕ) (gs : ℕ → ℕ → ℚ) : ℕ → ℕ → ℚ :=
  fun i j => |rollRows h (-1) gs i j - rollRows h 1 gs i j|

/-- `SeamImage.calc_C`, left grid:
`C_L = |j_plus - j_minus| + |j_minus - i_minus|` with
`i_minus = roll(gs, 1, axis=1)`. -/
def calcCL (h w : ℕ) (gs : ℕ → ℕ → ℚ) : ℕ → ℕ → ℚ :=
  fun i j => |rollRows h (-1) gs i j - rollRows h 1 gs i j|
    + |rollRows h 1 gs i j - rollCols w 1 gs i j|

/-- `SeamImage.calc_C`, right grid:
`C_R = |j_plus - j_minus| + |j_plus - i_minus|`. -/
def calcCR (h w : ℕ) (gs : ℕ → ℕ → ℚ) : ℕ → ℕ → ℚ :=
  fun i j => |rollRows h (-1) gs i j - rollRows h 1 gs i j|
    + |rollRows h (-1) gs i j - rollCols w 1 gs i j|

/-- `np.argmin` over the three rows of the DP `cost_matrix` at one column
(first index attaining the minimum). -/
def dpArgmin (c0 c1 c2 : WithTop ℚ) : ℕ :=
  if c0 ≤ c1 ∧ c0 ≤ c2 then 0 else if c1 ≤ c2 then 1 else 2

/-- Row 0 of the DP `cost_matrix` in `DPSeamImage.calc_M` (`utils.py` 386):
`cost_matrix[0, 1:] = m_prev[:-1] + CL[1:]`, every other column keeps the
`float("inf")` fill. -/
def dpCost0 (w : ℕ) (CLrow : ℕ → ℚ) (prev : ℕ → WithTop ℚ) (j : ℕ) : WithTop ℚ :=
  if 1 ≤ j ∧ j < w then prev (j - 1) + (CLrow j : WithTop ℚ) else ⊤

/-- Row 1 of the DP `cost_matrix` (`utils.py` 389):
`cost_matrix[1, :] = m_prev + CV`. -/
def dpCost1 (w : ℕ) (CVrow : ℕ → ℚ) (prev : ℕ → WithTop ℚ) (j : ℕ) : WithTop ℚ :=
  if j < w then prev j + (CVrow j : WithTop ℚ) else ⊤

/-- Row 2 of the DP `cost_matrix` (`utils.py` 392):
`cost_matrix[2, :-1] = m_prev[1:] + CR[:-1]`. -/
def dpCost2 (w : ℕ) (CRrow : ℕ → ℚ) (prev : ℕ → WithTop ℚ) (j : ℕ) : WithTop ℚ :=
  if j + 1 < w then prev (j + 1) + (CRrow j : WithTop ℚ) else ⊤

/-- One iteration of the loop `for i in range(1, h)` of
`DPSeamImage.calc_M` (`utils.py` 377-400), producing the new `M` row and
the new `backtrack_mat` row from the previous `M` row.  Note the grid rows
passed in by `calc_M` are `C_L[i-1]`, `C_V[i-1]`, `C_R[i-1]` for target
row `i` (`utils.py` 379-381).  `min_indices = np.argmin(cost_matrix,
axis=0)`; `M[i] += cost_matrix[min_indices, arange(w)]`;
`backtrack_mat[i] = [-1, 0, 1][min_indices]`. -/
def dpNext (w : ℕ) (Erow CLrow CVrow CRrow : ℕ → ℚ) (prev : ℕ → WithTop ℚ) :
    (ℕ → WithTop ℚ) × (ℕ → ℤ) :=
  (fun j => (Erow j : WithTop ℚ) +
      (if dpArgmin (dpCost0 w CLrow prev j) (dpCost1 w CVrow prev j) (dpCost2 w CRrow prev j) = 0
       then dpCost0 w CLrow prev j
       else if dpArgmin (dpCost0 w CLrow prev j) (dpCost1 w CVrow prev j) (dpCost2 w CRrow prev j) = 1
       then dpCost1 w CVrow prev j
       else dpCost2 w CRrow prev j),
   fun j =>
      if dpArgmin (dpCost0 w CLrow prev j) (dpCost1 w CVrow prev j) (dpCost2 w CRrow prev j) = 0
      then -1
      else if dpArgmin (dpCost0 w CLrow prev j) (dpCost1 w CVrow prev j) (dpCost2 w CRrow prev j) = 1
      then 0
      else 1)

/-- The rows of `M` and `backtrack_mat` built by `DPSeamImage.calc_M`:
row 0 of `M` is `E[0]` (`M = self.E.copy()`), row 0 of `backtrack_mat`
keeps its zero initialisation, and each later row comes from `dpNext`
applied to the previous `M` row with the cost rows of index one less than
the target row. -/
def dpRows (w : ℕ) (E CL CV CR : ℕ → ℕ → ℚ) : ℕ → (ℕ → WithTop ℚ) × (ℕ → ℤ)
  | 0 => (fun j => (E 0 j : WithTop ℚ), fun _ => 0)
  | i + 1 => dpNext w (E (i + 1)) (CL i) (CV i) (CR i) ((dpRows w E CL CV CR i).1)

/-- Entry `(i, j)` of the cumulative cost grid `M` returned by
`DPSeamImage.calc_M` (the Python loop fills rows `1 .. h-1`; the recursion
defines every row and the theorems quantify over rows below `h`). -/
def calcM (w : ℕ) (E CL CV CR : ℕ → ℕ → ℚ) (i j : ℕ) : WithTop ℚ :=
  (dpRows w E CL CV CR i).1 j

/-- Entry `(i, j)` of `backtrack_mat` as filled by `DPSeamImage.calc_M`. -/
def btMat (w : ℕ) (E CL CV CR : ℕ → ℕ → ℚ) (i j : ℕ) : ℤ :=
  (dpRows w E CL CV CR i).2 j

/-- Grayscale column `(0, 0, 1)` (one column, three rows).  Its `calc_C`
vertical costs at column 0 are `C_V[0] = 1`, `C_V[1] = 1`, `C_V[2] = 0`,
so consecutive rows of `C_V` differ, which separates the two readings of
the DP recurrence. -/
def gs3 : ℕ → ℕ → ℚ := fun i _ => if i = 2 then 1 else 0

lemma dpArgmin_sel (c0 c1 c2 : WithTop ℚ) :
    (if dpArgmin c0 c1 c2 = 0 then c0 else if dpArgmin c0 c1 c2 = 1 then c1 else c2)
      = min (min c0 c1) c2 := by
  by_cases h1 : c0 ≤ c1 ∧ c0 ≤ c2
  · have ham : dpArgmin c0 c1 c2 = 0 := by unfold dpArgmin; rw [if_pos h1]
    rw [min_eq_left h1.1, min_eq_left h1.2]
    simp [ham]
  · by_cases h2 : c1 ≤ c2
    · have ham : dpArgmin c0 c1 c2 = 1 := by unfold dpArgmin; rw [if_neg h1, if_pos h2]
      have h10 : c1 < c0 := by
        rcases not_and_or.mp h1 with h | h
        · exact lt_of_not_le h
        · exact lt_of_le_of_lt h2 (lt_of_not_le h)
      rw [min_eq_right h10.le, min_eq_left h2]
      simp [ham]
    · have ham : dpArgmin c0 c1 c2 = 2 := by unfold dpArgmin; rw [if_neg h1, if_neg h2]
      have h21 : c2 < c1 := lt_of_not_le h2
      have h20 : c2 < c0 := by
        rcases not_and_or.mp h1 with h | h
        · exact h21.trans (lt_of_not_le h)
        · exact lt_of_not_le h
      rw [min_eq_right (le_min h20.le h21.le)]
      simp [ham]

lemma dpArgmin_cases (c0 c1 c2 : WithTop ℚ) :
    dpArgmin c0 c1 c2 = 0 ∨ dpArgmin c0 c1 c2 = 1 ∨ dpArgmin c0 c1 c2 = 2 := by
  unfold dpArgmin
  split_ifs <;> simp

/-- C1 (counterexample): the claimed recurrence reads the cost grids at the
target row `i`, but `calc_M` reads them at row `i - 1`.  With the grayscale
column `(0, 0, 1)` (so `C_V` column `(1, 1, 0)`) and zero energy on a
3-row, 1-column grid, the code yields `M[2][0] = 2` while the claimed
recurrence `M[2][0] = E[2][0] + min(+∞, M[1][0] + C_V[2][0], +∞)` would
give `1` (both side candidates are unreachable at `j = 0 = w - 1`). -/
theorem dp_M_row_counterexample :
    ¬ (calcM 1 zeroGrid (calcCL 3 1 gs3) (calcCV 3 gs3) (calcCR 3 1 gs3) 2 0
        = (zeroGrid 2 0 : WithTop ℚ) +
            min (min ⊤ (calcM 1 zeroGrid (calcCL 3 1 gs3) (calcCV 3 gs3) (calcCR 3 1 gs3) 1 0
                  + (calcCV 3 gs3 2 0 : WithTop ℚ))) ⊤) := by
  simp [calcM, dpRows, dpNext, dpArgmin, dpCost0, dpCost1, dpCost2, calcCV, calcCL, calcCR,
    rollRows, rollCols, gs3, zeroGrid, Int.toNat_ofNat]
  norm_num [← WithTop.coe_add, WithTop.coe_lt_top]
  decide

/-- C1 (amended): the cumulative cost grid of `DPSeamImage.calc_M`
satisfies `M[0] = E[0]` and, for every row `i > 0` and column `j`,
`M[i][j] = E[i][j] + min(M[i-1][j-1] + C_L[i-1][j], M[i-1][j] + C_V[i-1][j],
M[i-1][j+1] + C_R[i-1][j])` — the cost grids are read at row `i - 1`, not
at row `i` as the claim states — with the side candidates unreachable
(`+∞`) at `j = 0` and `j = w - 1`, and `backtrack[i][j]` is the direction
in `{-1, 0, +1}` of the candidate attaining the minimum (first one on
ties, in left-vertical-right order). -/
theorem dp_M_recurrence_offset (h w : ℕ) (E CL CV CR : ℕ → ℕ → ℚ) (i j : ℕ)
    (hi : i < h) (hj : j < w) :
    calcM w E CL CV CR 0 j = (E 0 j : WithTop ℚ) ∧
    (0 < i →
      calcM w E CL CV CR i j
        = (E i j : WithTop ℚ) +
            min (min (if j = 0 then (⊤ : WithTop ℚ)
                      else calcM w E CL CV CR (i - 1) (j - 1) + (CL (i - 1) j : WithTop ℚ))
                     (calcM w E CL CV CR (i - 1) j + (CV (i - 1) j : WithTop ℚ)))
                (if j = w - 1 then (⊤ : WithTop ℚ)
                 else calcM w E CL CV CR (i - 1) (j + 1) + (CR (i - 1) j : WithTop ℚ)) ∧
      (btMat w E CL CV CR i j = -1 ∨ btMat w E CL CV CR i j = 0 ∨ btMat w E CL CV CR i j = 1) ∧
      calcM w E CL CV CR i j
        = (E i j : WithTop ℚ) +
            (if btMat w E CL CV CR i j = -1 then
               (if j = 0 then (⊤ : WithTop ℚ)
                else calcM w E CL CV CR (i - 1) (j - 1) + (CL (i - 1) j : WithTop ℚ))
             else if btMat w E CL CV CR i j = 0 then
               calcM w E CL CV CR (i - 1) j + (CV (i - 1) j : WithTop ℚ)
             else
               (if j = w - 1 then (⊤ : WithTop ℚ)
                else calcM w E CL CV CR (i - 1) (j + 1) + (CR (i - 1) j : WithTop ℚ)))) := by
  refine ⟨rfl, fun hpos => ?_⟩
  obtain ⟨k, rfl⟩ : ∃ k, i = k + 1 := ⟨i - 1, (Nat.succ_pred_eq_of_pos hpos).symm⟩
  simp only [Nat.add_sub_cancel]
  set prev : ℕ → WithTop ℚ := (dpRows w E CL CV CR k).1 with hprev
  have hMk : ∀ j2, calcM w E CL CV CR k j2 = prev j2 := fun _ => rfl
  have hc0 : dpCost0 w (CL k) prev j
      = (if j = 0 then (⊤ : WithTop ℚ)
         else calcM w E CL CV CR k (j - 1) + (CL k j : WithTop ℚ)) := by
    unfold dpCost0
    by_cases hj0 : j = 0
    · subst hj0; simp
    · have : 1 ≤ j := Nat.one_le_iff_ne_zero.mpr hj0
      rw [if_pos ⟨this, hj⟩, if_neg hj0, hMk]
  have hc1 : dpCost1 w (CV k) prev j
      = calcM w E CL CV CR k j + (CV k j : WithTop ℚ) := by
    unfold dpCost1
    rw [if_pos hj, hMk]
  have hc2 : dpCost2 w (CR k) prev j
      = (if j = w - 1 then (⊤ : WithTop ℚ)
         else calcM w E CL CV CR k (j + 1) + (CR k j : WithTop ℚ)) := by
    unfold dpCost2
    by_cases hjw : j = w - 1
    · have : ¬ (j + 1 < w) := by omega
      rw [if_neg this, if_pos hjw]
    · have : j + 1 < w := by omega
      rw [if_pos this, if_neg hjw, hMk]
  have hMstep : calcM w E CL CV CR (k + 1) j
      = (E (k + 1) j : WithTop ℚ) +
          (if dpArgmin (dpCost0 w (CL k) prev j) (dpCost1 w (CV k) prev j) (dpCost2 w (CR k) prev j) = 0
           then dpCost0 w (CL k) prev j
           else if dpArgmin (dpCost0 w (CL k) prev j) (dpCost1 w (CV k) prev j) (dpCost2 w (CR k) prev j) = 1
           then dpCost1 w (CV k) prev j
           else dpCost2 w (CR k) prev j) := rfl
  have hBstep : btMat w E CL CV CR (k + 1) j
      = (if dpArgmin (dpCost0 w (CL k) prev j) (dpCost1 w (CV k) prev j) (dpCost2 w (CR k) prev j) = 0
         then -1
         else if dpArgmin (dpCost0 w (CL k) prev j) (dpCost1 w (CV k) prev j) (dpCost2 w (CR k) prev j) = 1
         then 0
         else 1) := rfl
  refine ⟨?_, ?_, ?_⟩
  · rw [hMstep, dpArgmin_sel, hc0, hc1, hc2]
  · rw [hBstep]
    split_ifs <;> simp
  · rw [hMstep, hBstep]
    rcases dpArgmin_cases (dpCost0 w (CL k) prev j) (dpCost1 w (CV k) prev j)
        (dpCost2 w (CR k) prev j) with ha | ha | ha
    · simp only [ha]
      norm_num
      rw [hc0]
    · simp only [ha]
      norm_num
      rw [hc1]
    · simp only [ha]
      norm_num
      rw [hc2]

/-- C1 witness: the amended recurrence evaluated on a concrete 2-row,
1-column zero grid at row 1, column 0. -/
theorem dp_M_recurrence_offset_witness :
    (1 < 2 ∧ 0 < 1) ∧
    (calcM 1 zeroGrid zeroGrid zeroGrid zeroGrid 0 0 = (zeroGrid 0 0 : WithTop ℚ) ∧
      (0 < 1 →
        calcM 1 zeroGrid zeroGrid zeroGrid zeroGrid 1 0
          = (zeroGrid 1 0 : WithTop ℚ) +
              min (min ⊤ (calcM 1 zeroGrid zeroGrid zeroGrid zeroGrid 0 0
                    + (zeroGrid 0 0 : WithTop ℚ))) ⊤ ∧
        (btMat 1 zeroGrid zeroGrid zeroGrid zeroGrid 1 0 = -1 ∨
          btMat 1 zeroGrid zeroGrid zeroGrid zeroGrid 1 0 = 0 ∨
          btMat 1 zeroGrid zeroGrid zeroGrid zeroGrid 1 0 = 1) ∧
        calcM 1 zeroGrid zeroGrid zeroGrid zeroGrid 1 0
          = (zeroGrid 1 0 : WithTop ℚ) +
              (if btMat 1 zeroGrid zeroGrid zeroGrid zeroGrid 1 0 = -1 then ⊤
               else if btMat 1 zeroGrid zeroGrid zeroGrid zeroGrid 1 0 = 0 then
                 calcM 1 zeroGrid zeroGrid zeroGrid zeroGrid 0 0 + (zeroGrid 0 0 : WithTop ℚ)
               else ⊤))) :=
  ⟨⟨by decide, by decide⟩,
    dp_M_recurrence_offset 2 1 zeroGrid zeroGrid zeroGrid zeroGrid 1 0 (by decide) (by decide)⟩

/-- C2: seam validity fails for the greedy finder.  On a 2-by-2 grid with
zero cost grids and first-row energies `(0, 0)` — the state produced by
any constant image — the greedy walk starts at column 0, the center
candidate wins the tie, and `min_idx + direction - 1` moves to column
`-1`, so the produced seam `[0, -1]` leaves `[0, w)`.  (The DP finder
clamps its walk into range; the greedy finder does not.) -/
theorem greedy_seam_out_of_range :
    greedySeam 2 2 zeroGrid zeroGrid zeroGrid zeroGrid = [0, -1] ∧
    ¬ (∀ c ∈ greedySeam 2 2 zeroGrid zeroGrid zeroGrid zeroGrid, 0 ≤ c ∧ c < 2) := by
  have hval : greedySeam 2 2 zeroGrid zeroGrid zeroGrid zeroGrid = [0, -1] := by
    norm_num [greedySeam, greedyGo, greedyNext, argminIdx, argminIdxAux, pyIdx, zeroGrid,
      List.range_succ]
  refine ⟨hval, ?_⟩
  rw [hval]
  decide

/-- The mutable state of a `SeamImage` (`utils.py` 21-64) restricted to the
buffers the claims mention: `resized_rgb`, `resized_gs`, `idx_map`, and the
stored `h`, `w` and `vis_seams` flag.  RGB pixels are `(r, g, b)` triples. -/
structure CarveState where
  rgb : List (List (ℚ × ℚ × ℚ))
  gs : List (List ℚ)
  idxMap : List (List (ℕ × ℕ))
  h : ℕ
  w : ℕ
  visSeams : Bool
  deriving DecidableEq

/-- `SeamImage.rgb_to_grayscale` (`utils.py` 66-78): per-pixel weighted sum
with `gs_weights = (0.299, 0.587, 0.114)`. -/
def rgbToGray (rgb : List (List (ℚ × ℚ × ℚ))) : List (List ℚ) :=
  rgb.map (List.map (fun p => 299/1000 * p.1 + 587/1000 * p.2.1 + 114/1000 * p.2.2))

/-- The initial index map (`utils.py` 62-64):
`np.meshgrid(range(w), range(h))` stacked as `(idx_map_h, idx_map_v)`, so
cell `(i, j)` holds `(j, i)` — original column then original row. -/
def initIdxMap (h w : ℕ) : List (List (ℕ × ℕ)) :=
  (List.range h).map (fun i => (List.range w).map (fun j => (j, i)))

/-- `SeamImage.__init__` on a decoded rgb buffer: `resized_rgb` is a copy
of the image, `resized_gs` its grayscale, `h, w` its shape, and the index
map is the full meshgrid.  (The index map is created for any value of
`vis_seams`.) -/
def initState (rgb : List (List (ℚ × ℚ × ℚ))) (vis : Bool) : CarveState :=
  { rgb := rgb
    gs := rgbToGray rgb
    idxMap := initIdxMap rgb.length (rgb.headD []).length
    h := rgb.length
    w := (rgb.headD []).length
    visSeams := vis }

/-- Applying the boolean seam mask of `SeamImage.remove_seam` to a buffer:
row `i` loses the element at Python index `seam[i]` (negative indices
wrap).  The first numeric argument is the current row index. -/
def eraseRowsFrom {α : Type} (W : ℕ) (seam : List ℤ) : ℕ → List (List α) → List (List α)
  | _, [] => []
  | i, row :: rest =>
      row.eraseIdx (pyIdx W (seam.getD i 0)) :: eraseRowsFrom W seam (i + 1) rest

/-- `SeamImage.remove_seam` (`utils.py` 180-201).  The mask loop
`for i in range(h): mask[i, seam[i]] = False` raises `IndexError` — and no
buffer has been written yet — when the seam is shorter than `h` or an
entry falls outside `[-w, w)`; that exception is the `none` branch.
Otherwise one cell per row is removed from `resized_rgb`, `resized_gs`
and, only when `vis_seams` is set (`utils.py` 197-198), from `idx_map`;
the stored width drops by one.  `h` and the mask width are read from
`resized_rgb.shape`. -/
def removeSeam (st : CarveState) (seam : List ℤ) : Option CarveState :=
  if ∀ i < st.rgb.length, i < seam.length ∧
      -(((st.rgb.headD []).length : ℕ) : ℤ) ≤ seam.getD i 0 ∧
      seam.getD i 0 < (((st.rgb.headD []).length : ℕ) : ℤ) then
    some { rgb := eraseRowsFrom (st.rgb.headD []).length seam 0 st.rgb
           gs := eraseRowsFrom (st.rgb.headD []).length seam 0 st.gs
           idxMap := if st.visSeams then eraseRowsFrom (st.rgb.headD []).length seam 0 st.idxMap
                     else st.idxMap
           h := st.h
           w := st.w - 1
           visSeams := st.visSeams }
  else none

/-- Repeated `remove_seam`, one call per stored seam, threading the state;
a raised exception aborts the remaining removals. -/
def removeSeams (st : CarveState) : List (List ℤ) → Option CarveState
  | [] => some st
  | s :: rest => (removeSeam st s).bind (fun st2 => removeSeams st2 rest)

/-- `np.rot90(m, k=1, axes=(1, 0))` — the clockwise branch of
`rotate_mats`: for an `h`-by-`w` input, the result is `w`-by-`h` with
entry `(i, j)` equal to input entry `(h - 1 - j, i)`. -/
def rot90cw {α : Type} [Inhabited α] (m : List (List α)) : List (List α) :=
  (List.range (m.headD []).length).map (fun i =>
    (List.range m.length).map (fun j => (m.getD (m.length - 1 - j) []).getD i default))

/-- `np.rot90(m, k=1, axes=(0, 1))` — the counter-clockwise branch: entry
`(i, j)` of the result is input entry `(j, w - 1 - i)`. -/
def rot90ccw {α : Type} [Inhabited α] (m : List (List α)) : List (List α) :=
  (List.range (m.headD []).length).map (fun i =>
    (List.range m.length).map (fun j => (m.getD j []).getD ((m.headD []).length - 1 - i) default))

/-- `SeamImage.rotate_mats` (`utils.py` 203-214): rotate `resized_gs` and
`resized_rgb`, swap the stored `h` and `w`, and rotate `idx_map` only when
`vis_seams` is set. -/
def rotateMats (st : CarveState) (clockwise : Bool) : CarveState :=
  { rgb := if clockwise then rot90cw st.rgb else rot90ccw st.rgb
    gs := if clockwise then rot90cw st.gs else rot90ccw st.gs
    idxMap := if st.visSeams then
                (if clockwise then rot90cw st.idxMap else rot90ccw st.idxMap)
              else st.idxMap
    h := st.w
    w := st.h
    visSeams := st.visSeams }

lemma headD_map_range {β : Type} (f : ℕ → β) (n : ℕ) (hn : 0 < n) (d : β) :
    ((List.range n).map f).headD d = f 0 := by
  obtain ⟨k, rfl⟩ := Nat.exists_eq_succ_of_ne_zero hn.ne'
  rw [List.range_succ_eq_map]
  simp

lemma rot90_roundtrip {α : Type} [Inhabited α] (m : List (List α)) (w : ℕ)
    (hh : 0 < m.length) (hw : 0 < w) (hrect : ∀ r ∈ m, r.length = w) :
    rot90ccw (rot90cw m) = m := by
  have hmem : m.headD [] ∈ m := by
    obtain ⟨r, rest, rfl⟩ := List.exists_cons_of_ne_nil (List.length_pos.mp hh)
    simp
  have hhead : (m.headD []).length = w := hrect _ hmem
  have hcwlen : (rot90cw m).length = w := by
    unfold rot90cw; rw [List.length_map, List.length_range, hhead]
  have hcwrow : ∀ j, j < (rot90cw m).length → (rot90cw m).getD j []
      = (List.range m.length).map (fun j2 => (m.getD (m.length - 1 - j2) []).getD j default) := by
    intro j hj
    rw [List.getD_eq_getElem _ _ hj]
    unfold rot90cw
    rw [List.getElem_map, List.getElem_range]
  have hcwhead : ((rot90cw m).headD []).length = m.length := by
    unfold rot90cw
    rw [hhead, headD_map_range _ _ hw, List.length_map, List.length_range]
  apply List.ext_getElem
  · unfold rot90ccw
    rw [List.length_map, List.length_range, hcwhead]
  · intro i hi him
    unfold rot90ccw
    rw [List.getElem_map, List.getElem_range]
    apply List.ext_getElem
    · rw [List.length_map, List.length_range, hcwlen, hrect _ (List.getElem_mem him)]
    · intro j hj hjm
      rw [List.getElem_map, List.getElem_range, hcwhead]
      have hjw : j < (rot90cw m).length := by
        rw [List.length_map, List.length_range, hcwlen] at hj
        rw [hcwlen]
        have := hrect _ (List.getElem_mem him)
        omega
      rw [hcwrow j hjw]
      have hilen : i < m.length := by
        unfold rot90ccw at hi
        rw [List.length_map, List.length_range, hcwhead] at hi
        exact hi
      have hidx : m.length - 1 - i < m.length := by omega
      rw [List.getD_eq_getElem _ _ (by rw [List.length_map, List.length_range]; exact hidx),
        List.getElem_map, List.getElem_range]
      have e3 : m.length - 1 - (m.length - 1 - i) = i := by omega
      rw [e3, List.getD_eq_getElem _ _ hilen, List.getD_eq_getElem]

lemma rotateMats_roundtrip_aux (st : CarveState)
    (hr1 : 0 < st.rgb.length) (hr2 : 0 < (st.rgb.headD []).length)
    (hr3 : ∀ r ∈ st.rgb, r.length = (st.rgb.headD []).length)
    (hg1 : 0 < st.gs.length) (hg2 : 0 < (st.gs.headD []).length)
    (hg3 : ∀ r ∈ st.gs, r.length = (st.gs.headD []).length)
    (hi1 : 0 < st.idxMap.length) (hi2 : 0 < (st.idxMap.headD []).length)
    (hi3 : ∀ r ∈ st.idxMap, r.length = (st.idxMap.headD []).length) :
    rotateMats (rotateMats st true) false = st := by
  obtain ⟨rgbv, gsv, idxv, hv, wv, visv⟩ := st
  cases visv
  · show CarveState.mk (rot90ccw (rot90cw rgbv)) (rot90ccw (rot90cw gsv)) idxv hv wv false
      = CarveState.mk rgbv gsv idxv hv wv false
    rw [rot90_roundtrip _ _ hr1 hr2 hr3, rot90_roundtrip _ _ hg1 hg2 hg3]
  · show CarveState.mk (rot90ccw (rot90cw rgbv)) (rot90ccw (rot90cw gsv))
        (rot90ccw (rot90cw idxv)) hv wv true
      = CarveState.mk rgbv gsv idxv hv wv true
    rw [rot90_roundtrip _ _ hr1 hr2 hr3, rot90_roundtrip _ _ hg1 hg2 hg3,
      rot90_roundtrip _ _ hi1 hi2 hi3]

/-- C10: a clockwise `rotate_mats` immediately followed by a
counter-clockwise one restores `resized_rgb`, `resized_gs`, `idx_map` and
the stored `h` and `w` exactly, for every state whose buffers are
nonempty rectangular matrices (numpy arrays always are; an empty axis
cannot occur for a loaded image). -/
theorem rotate_mats_roundtrip (st : CarveState)
    (hr1 : 0 < st.rgb.length) (hr2 : 0 < (st.rgb.headD []).length)
    (hr3 : ∀ r ∈ st.rgb, r.length = (st.rgb.headD []).length)
    (hg1 : 0 < st.gs.length) (hg2 : 0 < (st.gs.headD []).length)
    (hg3 : ∀ r ∈ st.gs, r.length = (st.gs.headD []).length)
    (hi1 : 0 < st.idxMap.length) (hi2 : 0 < (st.idxMap.headD []).length)
    (hi3 : ∀ r ∈ st.idxMap, r.length = (st.idxMap.headD []).length) :
    rotateMats (rotateMats st true) false = st :=
  rotateMats_roundtrip_aux st hr1 hr2 hr3 hg1 hg2 hg3 hi1 hi2 hi3

/-- A concrete 1-by-2 black image state with seam visualisation on. -/
def demoC10 : CarveState := initState [[(0, 0, 0), (0, 0, 0)]] true

/-- C10 witness: the rotation round trip evaluated on a concrete 1-by-2
image state. -/
theorem rotate_mats_roundtrip_witness :
    (0 < demoC10.rgb.length ∧ 0 < (demoC10.rgb.headD []).length ∧
      (∀ r ∈ demoC10.rgb, r.length = (demoC10.rgb.headD []).length) ∧
      0 < demoC10.gs.length ∧ 0 < (demoC10.gs.headD []).length ∧
      (∀ r ∈ demoC10.gs, r.length = (demoC10.gs.headD []).length) ∧
      0 < demoC10.idxMap.length ∧ 0 < (demoC10.idxMap.headD []).length ∧
      (∀ r ∈ demoC10.idxMap, r.length = (demoC10.idxMap.headD []).length)) ∧
    rotateMats (rotateMats demoC10 true) false = demoC10 :=
  ⟨⟨by decide, by decide, by decide, by decide, by decide, by decide, by decide,
      by decide, by decide⟩,
    rotate_mats_roundtrip demoC10 (by decide) (by decide) (by decide) (by decide)
      (by decide) (by decide) (by decide) (by decide) (by decide)⟩

/-- C3: the greedy step does not move to the column of the minimal
candidate when the current column is 0.  With energies
`[[0, 9, 9], [7, 5, 9]]` and zero cost grids, the walk starts at column 0;
in row 1 the right candidate (column 1, cost `5 = E[1][1] + C_R[1][1]`) is
strictly cheaper than the center candidate (column 0, cost
`7 = E[1][0] + C_V[1][0]`), yet the code computes `direction =
argmin([7, 5]) = 1` and moves to `0 + 1 - 1 = 0`: the seam stays at
column 0 instead of moving to column 1. -/
theorem greedy_move_mismatch :
    greedySeam 2 3 stripeE zeroGrid zeroGrid zeroGrid = [0, 0] ∧
    stripeE 1 1 + zeroGrid 1 1 < stripeE 1 0 + zeroGrid 1 0 := by
  constructor
  · norm_num [greedySeam, greedyGo, greedyNext, argminIdx, argminIdxAux, pyIdx, zeroGrid,
      stripeE, List.range_succ]
  · norm_num [stripeE, zeroGrid]

/-- A concrete 1-by-2 image state (red pixel, green pixel) with seam
visualisation on. -/
def demoC5 : CarveState := initState [[(1, 0, 0), (0, 1, 0)]] true

/-- C5 (counterexample): `remove_seam` performs no validation of its own.
The seam `[-1]` has an entry outside `[0, current width)` — the claim says
this must fail fast without mutation — yet the call succeeds: the negative
index wraps Python-style, the last column is removed from every buffer and
the stored width drops to 1. -/
theorem remove_seam_negative_counterexample :
    (removeSeam demoC5 [-1]).isSome = true ∧
    (removeSeam demoC5 [-1]).elim [] CarveState.rgb = [[(1, 0, 0)]] ∧
    (removeSeam demoC5 [-1]).elim [] CarveState.idxMap = [[(0, 0)]] ∧
    (removeSeam demoC5 [-1]).elim 0 CarveState.w = 1 := by
  decide

/-- C5 (amended): `remove_seam` raises — and, the mask being a local and
all buffer writes coming after the loop, leaves every buffer and the
stored width untouched — exactly when the seam is shorter than the
current height or some entry among the first `h` lies outside
`[-w, w)`.  Entries in `[-w, -1]` wrap around and remove a column
without failure, and entries past the first `h` are ignored, so the
claimed precondition (length equals height, entries in `[0, w)`) is not
what the code enforces. -/
theorem remove_seam_failure_iff (st : CarveState) (seam : List ℤ) :
    removeSeam st seam = none ↔
      (seam.length < st.rgb.length ∨
        ∃ i < st.rgb.length,
          seam.getD i 0 < -(((st.rgb.headD []).length : ℕ) : ℤ) ∨
          (((st.rgb.headD []).length : ℕ) : ℤ) ≤ seam.getD i 0) := by
  unfold removeSeam
  split_ifs with hcheck
  · simp only [reduceCtorEq, false_iff]
    push_neg
    constructor
    · rcases Nat.eq_zero_or_pos st.rgb.length with h0 | h0
      · omega
      · have := (hcheck (st.rgb.length - 1) (by omega)).1
        omega
    · intro i hi
      have h2 := (hcheck i hi).2
      omega
  · simp only [eq_self_iff_true, true_iff]
    push_neg at hcheck
    obtain ⟨i, hi, hbad⟩ := hcheck
    by_cases hlen : i < seam.length
    · right
      refine ⟨i, hi, ?_⟩
      have := hbad hlen
      omega
    · left
      omega

/-- C5 witness: the failure characterisation applied to the concrete state
`demoC5` and the out-of-range seam `[5]` (width is 2, so `2 ≤ 5` raises). -/
theorem remove_seam_failure_iff_witness :
    removeSeam demoC5 [5] = none :=
  (remove_seam_failure_iff demoC5 [5]).mpr (by decide)

/-- A concrete 1-by-2 black image state with seam visualisation off. -/
def demoC4 : CarveState := initState [[(0, 0, 0), (0, 0, 0)]] false

/-- C4 (counterexample): with `vis_seams = False`, `remove_seam` never
touches `idx_map` (`utils.py` 197-198), so after one (successful) removal
the index map still holds its 2 original entries while
`current height * current width` is 1. -/
theorem idx_map_vis_false_counterexample :
    (removeSeam demoC4 [0]).isSome = true ∧
    (removeSeam demoC4 [0]).elim [] CarveState.idxMap = [[(0, 0), (1, 0)]] ∧
    (removeSeam demoC4 [0]).elim 0 (fun st => st.idxMap.flatten.length) = 2 ∧
    (removeSeam demoC4 [0]).elim 0 (fun st => st.h * st.w) = 1 := by
  decide

/-- Invariant of one index-map row at original row `i`: every entry is an
original coordinate `(column, i)` with the column below the original
width, and the columns are strictly increasing along the row (so the row
never repeats an entry). -/
def RowOk (w0 i : ℕ) (row : List (ℕ × ℕ)) : Prop :=
  (∀ p ∈ row, p.1 < w0 ∧ p.2 = i) ∧ row.Pairwise (fun p q => p.1 < q.1)

/-- Shape consistency of a carver state: the three buffers have the stored
height as row count and the stored width as row length. -/
def Rect (st : CarveState) : Prop :=
  st.rgb.length = st.h ∧ st.gs.length = st.h ∧ st.idxMap.length = st.h ∧
  (∀ r ∈ st.rgb, r.length = st.w) ∧ (∀ r ∈ st.gs, r.length = st.w) ∧
  (∀ r ∈ st.idxMap, r.length = st.w)

/-- Row-wise index-map invariant of a carver state relative to the
original width `w0`. -/
def IdxOk (w0 : ℕ) (st : CarveState) : Prop :=
  ∀ i, RowOk w0 i (st.idxMap.getD i [])

lemma pyIdx_lt (n : ℕ) (i : ℤ) (h1 : -(n : ℤ) ≤ i) (h2 : i < (n : ℤ)) : pyIdx n i < n := by
  unfold pyIdx
  split_ifs with h0 <;> omega

lemma eraseRowsFrom_length {α : Type} (W : ℕ) (seam : List ℤ) :
    ∀ (k : ℕ) (m : List (List α)), (eraseRowsFrom W seam k m).length = m.length := by
  intro k m
  induction m generalizing k with
  | nil => rfl
  | cons row rest ih => simp [eraseRowsFrom, ih]

lemma eraseRowsFrom_getD {α : Type} (W : ℕ) (seam : List ℤ) :
    ∀ (k i : ℕ) (m : List (List α)), i < m.length →
      (eraseRowsFrom W seam k m).getD i []
        = (m.getD i []).eraseIdx (pyIdx W (seam.getD (k + i) 0)) := by
  intro k i m
  induction m generalizing k i with
  | nil => intro hi; simp at hi
  | cons row rest ih =>
      intro hi
      cases i with
      | zero => simp [eraseRowsFrom]
      | succ i2 =>
          have hi2 : i2 < rest.length := by simpa using hi
          have := ih (k + 1) i2 hi2
          simpa [eraseRowsFrom, Nat.add_assoc, Nat.add_comm 1 i2] using this

lemma forall_mem_of_getD {α : Type} (l : List (List α)) (P : List α → Prop)
    (h : ∀ i < l.length, P (l.getD i [])) : ∀ r ∈ l, P r := by
  intro r hr
  obtain ⟨i, hi, rfl⟩ := List.getElem_of_mem hr
  have h2 := h i hi
  rwa [List.getD_eq_getElem _ _ hi] at h2

lemma RowOk_eraseIdx (w0 i k : ℕ) (row : List (ℕ × ℕ)) (h : RowOk w0 i row) :
    RowOk w0 i (row.eraseIdx k) :=
  ⟨fun p hp => h.1 p ((List.eraseIdx_sublist row k).subset hp),
   h.2.sublist (List.eraseIdx_sublist row k)⟩

lemma RowOk_nil (w0 i : ℕ) : RowOk w0 i [] := ⟨by simp, by simp⟩

lemma getD_length_of_rect {α : Type} (l : List (List α)) (w : ℕ)
    (hrect : ∀ r ∈ l, r.length = w) (i : ℕ) (hi : i < l.length) :
    (l.getD i []).length = w := by
  rw [List.getD_eq_getElem _ _ hi]
  exact hrect _ (List.getElem_mem hi)

lemma removeSeam_invariant (w0 : ℕ) (st st2 : CarveState) (seam : List ℤ)
    (hvis : st.visSeams = true) (hR : Rect st) (hI : IdxOk w0 st)
    (hsome : removeSeam st seam = some st2) :
    st2.visSeams = true ∧ st2.h = st.h ∧ st2.w = st.w - 1 ∧ Rect st2 ∧ IdxOk w0 st2 := by
  unfold removeSeam at hsome
  split_ifs at hsome with hcheck
  rw [Option.some.injEq] at hsome
  subst hsome
  obtain ⟨hRr, hRg, hRi, hrr, hrg, hri⟩ := hR
  rcases Nat.eq_zero_or_pos st.h with hh0 | hhpos
  · have hr0 : st.rgb = [] := List.length_eq_zero.mp (by omega)
    have hg0 : st.gs = [] := List.length_eq_zero.mp (by omega)
    have hi0 : st.idxMap = [] := List.length_eq_zero.mp (by omega)
    refine ⟨hvis, rfl, rfl, ?_, ?_⟩
    · refine ⟨?_, ?_, ?_, ?_, ?_, ?_⟩ <;>
        simp [hr0, hg0, hi0, eraseRowsFrom, hvis, hh0]
    · intro i
      simp only [hvis, if_true, hi0]
      simpa [eraseRowsFrom] using RowOk_nil w0 i
  · have hrgbne : st.rgb ≠ [] := by
      intro hnil
      rw [hnil] at hRr
      simp at hRr
      omega
    have hmem : st.rgb.headD [] ∈ st.rgb := by
      obtain ⟨r, rest, hcons⟩ := List.exists_cons_of_ne_nil hrgbne
      rw [hcons]; simp
    have hW : (st.rgb.headD []).length = st.w := hrr _ hmem
    have herase : ∀ i, i < st.h →
        pyIdx (st.rgb.headD []).length (seam.getD i 0) < st.w := by
      intro i hi
      have hc := hcheck i (by omega)
      rw [hW]
      exact pyIdx_lt _ _ (by rw [← hW]; exact hc.2.1) (by rw [← hW]; exact hc.2.2)
    refine ⟨hvis, rfl, rfl, ⟨?_, ?_, ?_, ?_, ?_, ?_⟩, ?_⟩
    · simp [eraseRowsFrom_length, hRr]
    · simp [eraseRowsFrom_length, hRg]
    · simp [hvis, eraseRowsFrom_length, hRi]
    · apply forall_mem_of_getD
      intro i hi
      rw [eraseRowsFrom_length] at hi
      rw [eraseRowsFrom_getD _ _ 0 i _ hi, List.length_eraseIdx,
        getD_length_of_rect _ _ hrr i hi]
      simp only [Nat.zero_add]
      rw [if_pos (herase i (by omega))]
    · apply forall_mem_of_getD
      intro i hi
      rw [eraseRowsFrom_length] at hi
      rw [eraseRowsFrom_getD _ _ 0 i _ hi, List.length_eraseIdx,
        getD_length_of_rect _ _ hrg i hi]
      simp only [Nat.zero_add]
      rw [if_pos (herase i (by omega))]
    · simp only [hvis, if_true]
      apply forall_mem_of_getD
      intro i hi
      rw [eraseRowsFrom_length] at hi
      rw [eraseRowsFrom_getD _ _ 0 i _ hi, List.length_eraseIdx,
        getD_length_of_rect _ _ hri i hi]
      simp only [Nat.zero_add]
      rw [if_pos (herase i (by omega))]
    · intro i
      simp only [hvis, if_true]
      rcases Nat.lt_or_ge i st.idxMap.length with hi | hi
      · rw [eraseRowsFrom_getD _ _ 0 i _ hi]
        simp only [Nat.zero_add]
        exact RowOk_eraseIdx _ _ _ _ (hI i)
      · rw [List.getD_eq_default _ _ (by rw [eraseRowsFrom_length]; exact hi)]
        exact RowOk_nil w0 i

lemma removeSeams_invariant (w0 : ℕ) (seams : List (List ℤ)) :
    ∀ (st st2 : CarveState), st.visSeams = true → Rect st → IdxOk w0 st →
      removeSeams st seams = some st2 →
      st2.visSeams = true ∧ st2.h = st.h ∧ Rect st2 ∧ IdxOk w0 st2 := by
  induction seams with
  | nil =>
      intro st st2 hv hR hI hs
      rw [removeSeams, Option.some.injEq] at hs
      subst hs
      exact ⟨hv, rfl, hR, hI⟩
  | cons s rest ih =>
      intro st st2 hv hR hI hs
      rw [removeSeams] at hs
      cases hmid : removeSeam st s with
      | none => rw [hmid] at hs; simp at hs
      | some stm =>
          rw [hmid] at hs
          have hs2 : removeSeams stm rest = some st2 := hs
          have step := removeSeam_invariant w0 st stm s hv hR hI hmid
          have tail := ih stm st2 step.1 step.2.2.2.1 step.2.2.2.2 hs2
          exact ⟨tail.1, by rw [tail.2.1, step.2.1], tail.2.2.1, tail.2.2.2⟩

lemma flatten_length_of_rect {α : Type} (L : List (List α)) (w : ℕ)
    (h : ∀ r ∈ L, r.length = w) : L.flatten.length = L.length * w := by
  induction L with
  | nil => simp
  | cons r rest ih =>
      simp only [List.flatten_cons, List.length_append, List.length_cons]
      rw [h r (by simp), ih (fun r2 hr2 => h r2 (by simp [hr2]))]
      ring

/-- C4 (amended): with `vis_seams = True`, after any sequence of
`remove_seam` calls that run without raising, starting from a freshly
initialised rectangular image, the index map has exactly
`current height * current width` entries, all pairwise distinct, and every
entry is an original coordinate `(column, row)` within the original image
bounds.  (With `vis_seams = False` the index map is never updated — see
the counterexample.) -/
theorem idx_map_invariant (rgb : List (List (ℚ × ℚ × ℚ))) (seams : List (List ℤ))
    (st2 : CarveState)
    (hrect : ∀ r ∈ rgb, r.length = (rgb.headD []).length)
    (hsome : removeSeams (initState rgb true) seams = some st2) :
    st2.idxMap.flatten.length = st2.h * st2.w ∧
    st2.idxMap.flatten.Nodup ∧
    (∀ p ∈ st2.idxMap.flatten, p.1 < (rgb.headD []).length ∧ p.2 < rgb.length) := by
  set w0 := (rgb.headD []).length with hw0
  have hR0 : Rect (initState rgb true) := by
    refine ⟨rfl, ?_, ?_, hrect, ?_, ?_⟩
    · simp [initState, rgbToGray]
    · simp [initState, initIdxMap]
    · intro r hr
      simp only [initState, rgbToGray, List.mem_map] at hr
      obtain ⟨r0, hr0, rfl⟩ := hr
      rw [List.length_map, hrect r0 hr0]
      rfl
    · intro r hr
      simp only [initState, initIdxMap, List.mem_map] at hr
      obtain ⟨i, hi, rfl⟩ := hr
      rw [List.length_map, List.length_range]
      rfl
  have hI0 : IdxOk w0 (initState rgb true) := by
    intro i
    rcases Nat.lt_or_ge i rgb.length with hi | hi
    · have hrow : (initState rgb true).idxMap.getD i []
          = (List.range w0).map (fun j => (j, i)) := by
        have hlen : i < (initState rgb true).idxMap.length := by
          simp [initState, initIdxMap, hi]
        rw [List.getD_eq_getElem _ _ hlen]
        simp only [initState, initIdxMap]
        rw [List.getElem_map, List.getElem_range]
      rw [hrow]
      constructor
      · intro p hp
        simp only [List.mem_map] at hp
        obtain ⟨j, hj, rfl⟩ := hp
        simp only [List.mem_range] at hj
        exact ⟨hj, rfl⟩
      · refine List.Pairwise.map _ ?_ (List.pairwise_lt_range w0)
        intro a b hab
        simpa using hab
    · rw [List.getD_eq_default _ _ (by simp [initState, initIdxMap]; omega)]
      exact RowOk_nil w0 i
  have inv := removeSeams_invariant w0 seams (initState rgb true) st2 rfl hR0 hI0 hsome
  obtain ⟨hv2, hh2, hR2, hI2⟩ := inv
  obtain ⟨hRr2, hRg2, hRi2, hrr2, hrg2, hri2⟩ := hR2
  refine ⟨?_, ?_, ?_⟩
  · rw [flatten_length_of_rect _ _ hri2, hRi2]
  · rw [List.nodup_flatten]
    constructor
    · intro l hl
      obtain ⟨i, hi, rfl⟩ := List.getElem_of_mem hl
      have hrow := hI2 i
      rw [List.getD_eq_getElem _ _ hi] at hrow
      exact hrow.2.imp (fun {p q} hpq => by
        intro heq
        rw [heq] at hpq
        exact lt_irrefl _ hpq)
    · rw [List.pairwise_iff_getElem]
      intro i j hi hj hij
      have hrowi := hI2 i
      have hrowj := hI2 j
      rw [List.getD_eq_getElem _ _ hi] at hrowi
      rw [List.getD_eq_getElem _ _ hj] at hrowj
      intro p hpi hpj
      have e1 := (hrowi.1 p hpi).2
      have e2 := (hrowj.1 p hpj).2
      omega
  · intro p hp
    rw [List.mem_flatten] at hp
    obtain ⟨row, hrow, hpr⟩ := hp
    obtain ⟨i, hi, rfl⟩ := List.getElem_of_mem hrow
    have hrowok := hI2 i
    rw [List.getD_eq_getElem _ _ hi] at hrowok
    have h1 := (hrowok.1 p hpr).1
    have h2 := (hrowok.1 p hpr).2
    constructor
    · exact h1
    · have hlast : i < st2.idxMap.length := hi
      rw [hRi2, hh2] at hlast
      simp only [initState] at hlast
      omega

/-- The 1-by-2 black image used by the C4 witness. -/
def demoC4img : List (List (ℚ × ℚ × ℚ)) := [[(0, 0, 0), (0, 0, 0)]]

/-- The state obtained from `demoC4img` (with visualisation on) after
removing the seam `[0]`. -/
def demoC4res : CarveState :=
  { rgb := eraseRowsFrom 2 [0] 0 (initState demoC4img true).rgb
    gs := eraseRowsFrom 2 [0] 0 (initState demoC4img true).gs
    idxMap := eraseRowsFrom 2 [0] 0 (initState demoC4img true).idxMap
    h := 1
    w := 1
    visSeams := true }

/-- C4 witness: the invariant evaluated after removing the seam `[0]` from
the concrete 1-by-2 image with visualisation on. -/
theorem idx_map_invariant_witness :
    (∀ r ∈ demoC4img, r.length = (demoC4img.headD []).length) ∧
    (demoC4res.idxMap.flatten.length = demoC4res.h * demoC4res.w ∧
      demoC4res.idxMap.flatten.Nodup ∧
      (∀ p ∈ demoC4res.idxMap.flatten,
        p.1 < (demoC4img.headD []).length ∧ p.2 < demoC4img.length)) :=
  ⟨by decide, idx_map_invariant demoC4img [[0]] demoC4res (by decide) (by rfl)⟩

/-- The loop `for _ in tqdm(range(num_remove))` of `SeamImage.seams_removal`
(`utils.py` 157-163), with the loop body — recompute `E` and the mask,
`find_minimal_seam`, append to the history, `remove_seam` — abstracted as
`step` (`find_minimal_seam` is an abstract method of the base class,
supplied by the greedy and DP subclasses); a raised exception aborts the
remaining iterations. -/
def iterCarveO (step : CarveState → Option CarveState) : ℕ → CarveState → Option CarveState
  | 0, st => some st
  | n + 1, st => (step st).bind (iterCarveO step n)

/-- `SeamImage.seams_removal(num_remove)`: Python `range(num_remove)` is
empty for a nonpositive argument, so the body runs `max(num_remove, 0)`
times and a negative count is silently a no-op. -/
def seamsRemoval (step : CarveState → Option CarveState) (numRemove : ℤ)
    (st : CarveState) : Option CarveState :=
  iterCarveO step numRemove.toNat st

/-- `SeamImage.seams_removal_horizontal` (`utils.py` 226-234): rotate
clockwise, remove vertical seams, rotate back (the closing rotation only
happens when no exception was raised). -/
def seamsRemovalHorizontal (step : CarveState → Option CarveState) (numRemove : ℤ)
    (st : CarveState) : Option CarveState :=
  (seamsRemoval step numRemove (rotateMats st true)).map (fun st2 => rotateMats st2 false)

/-- `resize_seam_carving` (`utils.py` 443-460): `reinit` the carver from
its original image, compute `height_diff = shapes[0][0] - shapes[1][0]`
and `width_diff = shapes[0][1] - shapes[1][1]`, then remove `width_diff`
vertical seams followed by `height_diff` horizontal seams.  No delta is
validated anywhere on this path. -/
def resizeSeamCarving (step : CarveState → Option CarveState)
    (orig : List (List (ℚ × ℚ × ℚ))) (vis : Bool)
    (shapes : (ℤ × ℤ) × (ℤ × ℤ)) : Option CarveState :=
  (seamsRemoval step (shapes.1.2 - shapes.2.2) (initState orig vis)).bind
    (fun st2 => seamsRemovalHorizontal step (shapes.1.1 - shapes.2.1) st2)

lemma initState_rotate_roundtrip (orig : List (List (ℚ × ℚ × ℚ))) (vis : Bool)
    (h1 : 0 < orig.length) (h2 : 0 < (orig.headD []).length)
    (h3 : ∀ r ∈ orig, r.length = (orig.headD []).length) :
    rotateMats (rotateMats (initState orig vis) true) false = initState orig vis := by
  obtain ⟨r0, rest, rfl⟩ := List.exists_cons_of_ne_nil (List.length_pos.mp h1)
  apply rotateMats_roundtrip_aux
  · exact h1
  · exact h2
  · exact h3
  · simp [initState, rgbToGray]
  · simp only [initState, rgbToGray, List.map_cons, List.headD_cons]
    rw [List.length_map]
    exact h2
  · intro r hr
    simp only [initState, rgbToGray, List.map_cons, List.headD_cons] at hr ⊢
    rcases List.mem_cons.mp hr with hcase | hcase
    · subst hcase
      rfl
    · obtain ⟨r2, hr2, rfl⟩ := List.mem_map.mp hcase
      rw [List.length_map, List.length_map]
      have e1 := h3 r2 (by simp [hr2])
      have e2 := h3 r0 (by simp)
      simp only [List.headD_cons] at e1 e2
      omega
  · simp [initState, initIdxMap]
  · simp only [initState, initIdxMap]
    rw [headD_map_range _ _ (by simp)]
    simpa using h2
  · intro r hr
    simp only [initState, initIdxMap, List.mem_map] at hr
    obtain ⟨i, hi, rfl⟩ := hr
    simp only [initState, initIdxMap]
    rw [headD_map_range _ _ (by simp)]
    simp

/-- A step that always raises; `resize` with nonpositive deltas never
invokes its step, so even this one succeeds. -/
def noneStep : CarveState → Option CarveState := fun _ => none

/-- A concrete 2-by-2 black image. -/
def orig22 : List (List (ℚ × ℚ × ℚ)) :=
  [[(0, 0, 0), (0, 0, 0)], [(0, 0, 0), (0, 0, 0)]]

/-- C6 (counterexample): resizing a 2-by-2 image to target shape `(2, 3)`
has a negative width delta (`2 - 3 = -1`), yet the resize entry point does
not fail: both removal loops run zero iterations (even with a step that
always raises) and the freshly re-initialised image is returned
unchanged. -/
theorem resize_negative_counterexample :
    resizeSeamCarving noneStep orig22 true ((2, 2), (2, 3))
      = some (initState orig22 true) := by
  show some (rotateMats (rotateMats (initState orig22 true) true) false)
      = some (initState orig22 true)
  rw [initState_rotate_roundtrip orig22 true (by decide) (by decide) (by decide)]

/-- C6 (amended): a negative (or zero) delta makes the corresponding
removal phase run zero iterations — `range` of a nonpositive number is
empty — so a request in which both deltas are nonpositive returns the
reinitialised original image unchanged, for every seam-finding step, with
no failure.  (A negative delta alongside a positive one likewise skips
only its own phase while the other phase still removes seams.) -/
theorem resize_negative_noop (step : CarveState → Option CarveState)
    (orig : List (List (ℚ × ℚ × ℚ))) (vis : Bool) (shapes : (ℤ × ℤ) × (ℤ × ℤ))
    (h1 : 0 < orig.length) (h2 : 0 < (orig.headD []).length)
    (h3 : ∀ r ∈ orig, r.length = (orig.headD []).length)
    (hh : shapes.1.1 - shapes.2.1 ≤ 0) (hw : shapes.1.2 - shapes.2.2 ≤ 0) :
    resizeSeamCarving step orig vis shapes = some (initState orig vis) := by
  simp only [resizeSeamCarving, seamsRemoval, seamsRemovalHorizontal,
    Int.toNat_of_nonpos hh, Int.toNat_of_nonpos hw]
  show some (rotateMats (rotateMats (initState orig vis) true) false)
      = some (initState orig vis)
  rw [initState_rotate_roundtrip orig vis h1 h2 h3]

/-- C6 witness: the no-op behaviour evaluated with the always-raising step
on the concrete 2-by-2 image and a doubly negative delta request. -/
theorem resize_negative_noop_witness :
    (0 < orig22.length ∧ 0 < (orig22.headD []).length ∧
      (∀ r ∈ orig22, r.length = (orig22.headD []).length) ∧
      ((1 : ℤ), (1 : ℤ)).1 - ((2 : ℤ), (3 : ℤ)).1 ≤ 0 ∧
      ((1 : ℤ), (1 : ℤ)).2 - ((2 : ℤ), (3 : ℤ)).2 ≤ 0) ∧
    resizeSeamCarving noneStep orig22 true ((1, 1), (2, 3))
      = some (initState orig22 true) :=
  ⟨⟨by decide, by decide, by decide, by decide, by decide⟩,
    resize_negative_noop noneStep orig22 true ((1, 1), (2, 3)) (by decide) (by decide)
      (by decide) (by decide) (by decide)⟩

/-- The concrete seam finder that always removes the leftmost column: seam
`[0, 0, ..., 0]` of the current height. -/
def removeCol0 (st : CarveState) : Option CarveState :=
  removeSeam st (List.replicate st.rgb.length 0)

/-- A concrete 10-by-10 black image. -/
def orig1010 : List (List (ℚ × ℚ × ℚ)) :=
  List.replicate 10 (List.replicate 10 ((0 : ℚ), (0 : ℚ), (0 : ℚ)))

/-- C7 (counterexample): resizing a 10-by-10 image with shapes
`((10, 10), (8, 10))` removes 0 vertical and 2 horizontal seams: the
result has height 8 and width 10 — its buffers have 8 rows of 10 pixels.
Removing 2 vertical seams and 0 horizontal seams, as the claim states,
would instead leave height 10 and width `10 - 2 = 8`. -/
theorem resize_10_8_counterexample :
    (resizeSeamCarving removeCol0 orig1010 false ((10, 10), (8, 10))).isSome = true ∧
    (resizeSeamCarving removeCol0 orig1010 false ((10, 10), (8, 10))).elim 0 CarveState.h = 8 ∧
    (resizeSeamCarving removeCol0 orig1010 false ((10, 10), (8, 10))).elim 0 CarveState.w = 10 ∧
    ((resizeSeamCarving removeCol0 orig1010 false ((10, 10), (8, 10))).elim []
        CarveState.rgb).length = 8 ∧
    (((resizeSeamCarving removeCol0 orig1010 false ((10, 10), (8, 10))).elim []
        CarveState.rgb).headD []).length = 10 ∧
    ¬ ((resizeSeamCarving removeCol0 orig1010 false ((10, 10), (8, 10))).elim 0
        CarveState.w = 10 - 2) := by
  decide

/-- C7 (amended): with shapes `((10, 10), (8, 10))` the resize entry point
performs zero vertical removals (`width_diff = 10 - 10 = 0`) and hands the
freshly initialised image to the horizontal phase with
`height_diff = 10 - 8 = 2`, i.e. it removes exactly 0 vertical and 2
horizontal seams, whatever the seam-finding step and the image. -/
theorem resize_10_8_phases (step : CarveState → Option CarveState)
    (orig : List (List (ℚ × ℚ × ℚ))) (vis : Bool) :
    resizeSeamCarving step orig vis ((10, 10), (8, 10))
      = seamsRemovalHorizontal step 2 (initState orig vis) := rfl

lemma rollRows_neg_one (h : ℕ) (g : ℕ → ℕ → ℚ) (i j : ℕ) :
    rollRows h (-1) g i j = g ((i + 1) % h) j := by
  have e : (((i : ℤ) - (-1)) % (h : ℤ)).toNat = (i + 1) % h := by
    rw [show (i : ℤ) - (-1) = ((i + 1 : ℕ) : ℤ) by push_cast; ring,
      ← Int.natCast_mod, Int.toNat_natCast]
  unfold rollRows
  rw [e]

lemma rollRows_one (h : ℕ) (g : ℕ → ℕ → ℚ) (i j : ℕ) (hh : 0 < h) :
    rollRows h 1 g i j = g ((i + h - 1) % h) j := by
  have e : (((i : ℤ) - 1) % (h : ℤ)).toNat = (i + h - 1) % h := by
    rw [show (i : ℤ) - 1 = ((i + h - 1 : ℕ) : ℤ) + (h : ℤ) * (-1) by
        rw [show ((i + h - 1 : ℕ) : ℤ) = (i : ℤ) + h - 1 by omega]; ring,
      Int.add_mul_emod_self_left, ← Int.natCast_mod, Int.toNat_natCast]
  unfold rollRows
  rw [e]

lemma rollCols_one (w : ℕ) (g : ℕ → ℕ → ℚ) (i j : ℕ) (h1 : 1 ≤ j) (h2 : j < w) :
    rollCols w 1 g i j = g i (j - 1) := by
  have e : (((j : ℤ) - 1) % (w : ℤ)).toNat = j - 1 := by
    rw [Int.emod_eq_of_lt (by omega) (by omega)]
    omega
  unfold rollCols
  rw [e]

/-- C8: the directional cost grids of `calc_C` on an `h`-by-`w` grayscale:
for every cell, `C_V[i][j] = |gs[i+1][j] - gs[i-1][j]|` with the row
indices wrapped circularly (`np.roll` semantics, so row 0's previous row
is the last row and vice versa), and for every cell with `j ≥ 1` —
`gs[i][j-1]` is defined input there —
`C_L[i][j] = C_V[i][j] + |gs[i-1][j] - gs[i][j-1]|` and
`C_R[i][j] = C_V[i][j] + |gs[i+1][j] - gs[i][j-1]|`.  (`i - 1` modulo `h`
is written `(i + h - 1) % h`.) -/
theorem calc_C_wrap (h w : ℕ) (gs : ℕ → ℕ → ℚ) (i j : ℕ)
    (hh : 0 < h) (hi : i < h) (hj : j < w) :
    calcCV h gs i j = |gs ((i + 1) % h) j - gs ((i + h - 1) % h) j| ∧
    (1 ≤ j →
      calcCL h w gs i j = calcCV h gs i j + |gs ((i + h - 1) % h) j - gs i (j - 1)| ∧
      calcCR h w gs i j = calcCV h gs i j + |gs ((i + 1) % h) j - gs i (j - 1)|) := by
  refine ⟨?_, fun hj1 => ⟨?_, ?_⟩⟩
  · unfold calcCV
    rw [rollRows_neg_one, rollRows_one _ _ _ _ hh]
  · unfold calcCL calcCV
    rw [rollRows_neg_one, rollRows_one _ _ _ _ hh, rollCols_one _ _ _ _ hj1 hj]
  · unfold calcCR calcCV
    rw [rollRows_neg_one, rollRows_one _ _ _ _ hh, rollCols_one _ _ _ _ hj1 hj]

/-- A 2-by-2 grayscale with a single bright pixel, for the C8 witness. -/
def gsW : ℕ → ℕ → ℚ := fun i j => if i = 0 ∧ j = 0 then 1 else 0

/-- C8 witness: the cost formulas evaluated on the concrete 2-by-2
grayscale `gsW` at cell `(1, 1)`. -/
theorem calc_C_wrap_witness :
    (0 < 2 ∧ 1 < 2 ∧ 1 < 2) ∧
    (calcCV 2 gsW 1 1 = |gsW ((1 + 1) % 2) 1 - gsW ((1 + 2 - 1) % 2) 1| ∧
      (1 ≤ 1 →
        calcCL 2 2 gsW 1 1
          = calcCV 2 gsW 1 1 + |gsW ((1 + 2 - 1) % 2) 1 - gsW 1 (1 - 1)| ∧
        calcCR 2 2 gsW 1 1
          = calcCV 2 gsW 1 1 + |gsW ((1 + 1) % 2) 1 - gsW 1 (1 - 1)|)) :=
  ⟨⟨by decide, by decide, by decide⟩,
    calc_C_wrap 2 2 gsW 1 1 (by decide) (by decide) (by decide)⟩

/-- The grayscale padded by one extra row and one extra column holding the
constant `0.5`, as built by `np.pad(..., ((0, 1), (0, 1)), constant_values
= 0.5)` in `SeamImage.calc_gradient_magnitude` (`utils.py` 92-97). -/
def padGS (h w : ℕ) (gs : ℕ → ℕ → ℚ) : ℕ → ℕ → ℚ :=
  fun i j => if i < h ∧ j < w then gs i j else 1 / 2

/-- The squared gradient magnitude of `calc_gradient_magnitude`
(`utils.py` 98-101): forward differences of the padded grayscale along the
row and column axes, squared and summed.  The code's output is the real
square root of this rational, taken in the theorems (an exact square root
is not a rational-valued operation). -/
def gradMagSq (h w : ℕ) (gs : ℕ → ℕ → ℚ) : ℕ → ℕ → ℚ :=
  fun i j =>
    (padGS h w gs (i + 1) j - padGS h w gs i j) ^ 2
      + (padGS h w gs i (j + 1) - padGS h w gs i j) ^ 2

/-- C9: `gradient_magnitude` pads the grayscale by one row and one column
with the constant `0.5`, takes forward differences along the row and
column axes of the padded grid and returns `sqrt(dx^2 + dy^2)`; for every
grayscale with all values in `[0, 1]`, every output value lies in
`[0, sqrt 2]`. -/
theorem gradient_magnitude_range (h w : ℕ) (gs : ℕ → ℕ → ℚ)
    (hgs : ∀ i < h, ∀ j < w, 0 ≤ gs i j ∧ gs i j ≤ 1)
    (i j : ℕ) (hi : i < h) (hj : j < w) :
    0 ≤ Real.sqrt ((gradMagSq h w gs i j : ℚ) : ℝ) ∧
    Real.sqrt ((gradMagSq h w gs i j : ℚ) : ℝ) ≤ Real.sqrt 2 := by
  have hpad : ∀ a b, 0 ≤ padGS h w gs a b ∧ padGS h w gs a b ≤ 1 := by
    intro a b
    unfold padGS
    split_ifs with hab
    · exact hgs a hab.1 b hab.2
    · norm_num
  refine ⟨Real.sqrt_nonneg _, ?_⟩
  apply Real.sqrt_le_sqrt
  have hq : gradMagSq h w gs i j ≤ 2 := by
    unfold gradMagSq
    nlinarith [(hpad (i + 1) j).1, (hpad (i + 1) j).2, (hpad i j).1, (hpad i j).2,
      (hpad i (j + 1)).1, (hpad i (j + 1)).2]
  exact_mod_cast hq

/-- C9 witness: the gradient range applied to the concrete 1-by-1 zero
grayscale. -/
theorem gradient_magnitude_range_witness :
    (∀ i < 1, ∀ j < 1, 0 ≤ zeroGrid i j ∧ zeroGrid i j ≤ 1) ∧
    (0 ≤ Real.sqrt ((gradMagSq 1 1 zeroGrid 0 0 : ℚ) : ℝ) ∧
      Real.sqrt ((gradMagSq 1 1 zeroGrid 0 0 : ℚ) : ℝ) ≤ Real.sqrt 2) :=
  ⟨by decide,
    gradient_magnitude_range 1 1 zeroGrid (by decide) 0 0 (by decide) (by decide)⟩

end SeamCarve
